import Mathlib

/-!
Shallow embedding of `src/main.go` (in-memory key-value store with a
file-backed write-ahead transaction log) and proofs of the specification
claims about it.

Strings are modelled as `List Char`; the in-memory map as an association
list with Go-map semantics (insert replaces, delete removes); channels and
goroutines as explicit lists and total functions (a consumer loop returns
the file records it appended, whether it pushed an error, and the queue
entries it never consumed; `ReadEvents` returns the list of emitted events
and the optional error that was pushed before both channels were closed).
The `uint64` sequence counter is modelled as `Nat` reduced modulo `2 ^ 64`
where it is incremented.
-/

namespace KVStore

/-- Strings of the Go program, modelled as lists of characters. -/
abbrev Str := List Char

/-- The guarded map `myMap` (main.go:16-19): an association list whose keys
are unique, with Go-map insert/delete semantics. -/
abbrev Store := List (Str × Str)

/-- Go map lookup `value, ok := myMap.m[key]` (main.go:32). -/
def mapFind (k : Str) : Store → Option Str
  | [] => none
  | (k', v) :: rest => if k' = k then some v else mapFind k rest

/-- Go map assignment `myMap.m[key] = value` (main.go:25): replace the
existing binding or append a new one. -/
def mapInsert (k v : Str) : Store → Store
  | [] => [(k, v)]
  | (k', v') :: rest => if k' = k then (k, v) :: rest else (k', v') :: mapInsert k v rest

/-- Go builtin `delete(myMap.m, key)` (main.go:43): remove every binding of
the key (at most one exists). -/
def mapErase (k : Str) : Store → Store
  | [] => []
  | (k', v') :: rest => if k' = k then mapErase k rest else (k', v') :: mapErase k rest

/-- Errors returned by the store layer: `ErrorNoSuchKey` (main.go:21). -/
inductive KVError
  | noSuchKey
deriving DecidableEq, Repr

/-- Store op `Put` (main.go:23-28): state-passing form of the mutation of the
global map; always returns `nil` error. -/
def Put (key value : Str) (s : Store) : Store × Option KVError :=
  (mapInsert key value s, none)

/-- Store op `Get` (main.go:30-39). -/
def Get (key : Str) (s : Store) : Str × Option KVError :=
  match mapFind key s with
  | some v => (v, none)
  | none => ([], some .noSuchKey)

/-- Store op `Delete` (main.go:41-46): always returns `nil` error. -/
def Delete (key : Str) (s : Store) : Store × Option KVError :=
  (mapErase key s, none)

/-! ## Events and the transaction log writer -/

/-- Constant `EventDelete EventType = 1` (main.go:98); `EventType` is a Go
`byte`, modelled as `Nat`. -/
def EventDelete : Nat := 1

/-- Constant `EventPut EventType = 2` (main.go:99). -/
def EventPut : Nat := 2

/-- The `Event` struct (main.go:107-112). `Sequence` is a `uint64` and
`EventType` a `byte`, both modelled as `Nat`. -/
structure Event where
  Sequence : Nat
  EventType : Nat
  Key : Str
  Value : Str
deriving DecidableEq, Repr

/-- Method `WritePut` (main.go:121-123): the event value it sends on the
events channel (`Sequence` is left zero; the consumer assigns sequence
numbers itself). -/
def WritePut (key value : Str) : Event :=
  ⟨0, EventPut, key, value⟩

/-- Method `WriteDelete` (main.go:125-127): the event value it sends on the
events channel (`Value` is left empty). -/
def WriteDelete (key : Str) : Event :=
  ⟨0, EventDelete, key, []⟩

/-- Modulus of the `uint64` sequence counter. -/
def W64 : Nat := 2 ^ 64

/-- Decimal digits of `n`, least significant first, with explicit structural
fuel (`fuel ≥ n` suffices). -/
def natDecCore (fuel n : Nat) : List Char :=
  match fuel with
  | 0 => []
  | fuel + 1 => if n = 0 then [] else Nat.digitChar (n % 10) :: natDecCore fuel (n / 10)

/-- Rendering of `%d` for a non-negative integer (main.go:150): standard
decimal notation, most significant digit first. -/
def natDec (n : Nat) : Str :=
  if n = 0 then ['0'] else (natDecCore n n).reverse

/-- One record appended by the consumer goroutine of `Run` (main.go:150):
the four `Fprintf` arguments before rendering. -/
structure LogRecord where
  seq : Nat
  kind : Nat
  key : Str
  value : Str
deriving DecidableEq, Repr

/-- The text of a record without its final newline, exactly as
`fmt.Fprintf(l.file, "%d\t%d\t%s\t%s\n", ...)` lays it out (main.go:150):
the line the scanner later hands back as `scanner.Text()`. -/
def recordLine (r : LogRecord) : Str :=
  natDec r.seq ++ '\t' :: (natDec r.kind ++ '\t' :: (r.key ++ '\t' :: r.value))

/-- The full byte sequence one `Fprintf` call appends: the line followed by
the newline terminator. -/
def recordText (r : LogRecord) : Str :=
  recordLine r ++ ['\n']

/-- The consumer goroutine of `Run` (main.go:147-157). `ok i` tells whether
the `i`-th `Fprintf` call succeeds (the file-error oracle); `lastSeq` is
`l.lastSequence`, a `uint64`, so its increment is taken mod `2 ^ 64`.
Returns the records appended to the file, whether an error was pushed onto
the errors channel (after which the goroutine returns), and the queued
events it never dequeued. -/
def runConsumer (ok : Nat → Bool) (idx lastSeq : Nat) : List Event → List LogRecord × Bool × List Event
  | [] => ([], false, [])
  | e :: rest =>
    let seq := (lastSeq + 1) % W64
    if ok idx then
      let out := runConsumer ok (idx + 1) seq rest
      (⟨seq, e.EventType, e.Key, e.Value⟩ :: out.1, out.2.1, out.2.2)
    else ([], true, rest)

/-! ## The transaction log reader

`ReadEvents` (main.go:160-188) parses each line with
`fmt.Sscanf(line, "%d\t%d\t%s\t%s", ...)`. Go's `fmt` scanner skips runs of
whitespace wherever the format holds whitespace or before a verb, `%d` reads
a maximal run of decimal digits and range-checks the value against the
destination type (`uint64` for `Sequence`, `byte` for `EventType`), and `%s`
reads a maximal non-empty run of non-whitespace characters, failing at end
of input. Whitespace is the `fmt` scanner's space table below. -/

/-- Characters Go's `fmt` scanner treats as space (the `space` table of
`fmt/scan.go`), which delimit `%s` tokens and are skipped between fields. -/
def isScanSpace (c : Char) : Bool :=
  (0x0009 ≤ c.toNat && c.toNat ≤ 0x000d) || c.toNat = 0x0020 || c.toNat = 0x0085 ||
  c.toNat = 0x00a0 || c.toNat = 0x1680 || (0x2000 ≤ c.toNat && c.toNat ≤ 0x200a) ||
  c.toNat = 0x2028 || c.toNat = 0x2029 || c.toNat = 0x202f || c.toNat = 0x205f ||
  c.toNat = 0x3000

/-- Characters the integer verb consumes: the ASCII decimal digits. -/
def isDigitChar (c : Char) : Bool := 48 ≤ c.toNat && c.toNat ≤ 57

/-- Numeric value of a decimal digit character. -/
def digitVal (c : Char) : Nat := c.toNat - 48

/-- Scanning of one `%d` verb into an unsigned integer: skip leading space,
then read a non-empty maximal run of decimal digits. Returns the value and
the rest of the input. -/
def scanNat (cs : Str) : Option (Nat × Str) :=
  let cs := cs.dropWhile isScanSpace
  let ds := cs.takeWhile isDigitChar
  if ds.isEmpty then none
  else some (ds.foldl (fun a c => a * 10 + digitVal c) 0, cs.dropWhile isDigitChar)

/-- Scanning of one `%s` verb: skip leading space, then read a non-empty
maximal run of non-space characters. -/
def scanToken (cs : Str) : Option (Str × Str) :=
  let cs := cs.dropWhile isScanSpace
  let t := cs.takeWhile (fun c => !isScanSpace c)
  if t.isEmpty then none
  else some (t, cs.dropWhile (fun c => !isScanSpace c))

/-- Parsing of one log line by `fmt.Sscanf(line, "%d\t%d\t%s\t%s", &e.Sequence,
&e.EventType, &e.Key, &e.Value)` (main.go:171): two range-checked integers
(`uint64`, then `byte`) and two non-empty tokens; input remaining after the
last verb is ignored. -/
def parseLine (cs : Str) : Option LogRecord :=
  match scanNat cs with
  | none => none
  | some (seq, r1) =>
    if W64 ≤ seq then none
    else
      match scanNat r1 with
      | none => none
      | some (kind, r2) =>
        if 2 ^ 8 ≤ kind then none
        else
          match scanToken r2 with
          | none => none
          | some (key, r3) =>
            match scanToken r3 with
            | none => none
            | some (value, _) => some ⟨seq, kind, key, value⟩

/-- Errors `ReadEvents` pushes on its error channel: "input parse error"
(main.go:172) and "transaction numbers out of sequence" (main.go:176). The
scanner I/O failure branch (main.go:182-185) never fires in this model of an
in-memory line list. -/
inductive ReadErr
  | parseErr
  | seqErr
deriving DecidableEq, Repr

/-- The goroutine body of `ReadEvents` (main.go:165-186): scan the lines in
order; on a parse failure push a parse error and stop; on a sequence not
strictly greater than `l.lastSequence` push a sequence error and stop;
otherwise advance `l.lastSequence` and emit the event. Returns the emitted
events and the error pushed, if any; the function returning models the
goroutine closing both output channels via its `defer`s. -/
def readLoop (lastSeq : Nat) : List Str → List Event × Option ReadErr
  | [] => ([], none)
  | line :: rest =>
    match parseLine line with
    | none => ([], some .parseErr)
    | some r =>
      if r.seq ≤ lastSeq then ([], some .seqErr)
      else
        let out := readLoop r.seq rest
        (⟨r.seq, r.kind, r.key, r.value⟩ :: out.1, out.2)

/-- `ReadEvents` on a freshly constructed logger (`NewFileTransactionLogger`
leaves `lastSequence` zero, main.go:133-139). -/
def ReadEvents (lines : List Str) : List Event × Option ReadErr :=
  readLoop 0 lines

/-! ## HTTP handlers (main.go:53-92)

Each handler is modelled as a pure function from its request data and the
current store to the resulting store, the HTTP status written, and the list
of `TransactionLogger` calls it performs. The source handlers call only the
store ops and never a logger — `main` (main.go:190-197) wires no
`TransactionLogger` into the routes — so their call list is empty. -/

/-- A call to the `TransactionLogger` interface (main.go:102-105). -/
inductive LoggerCall
  | writePut (key value : Str)
  | writeDelete (key : Str)
deriving DecidableEq, Repr

/-- Outcome of one handler invocation. -/
structure HandlerResult where
  store : Store
  status : Nat
  loggerCalls : List LoggerCall
deriving DecidableEq, Repr

/-- `keyValuePutHandler` (main.go:53-70) with its body already read: calls
`Put` (which cannot fail) and writes status 201; it makes no logger call. -/
def keyValuePutHandler (key body : Str) (s : Store) : HandlerResult :=
  let out := Put key body s
  match out.2 with
  | some _ => ⟨s, 500, []⟩
  | none => ⟨out.1, 201, []⟩

/-- `keyValueDeleteHandler` (main.go:88-92): calls `Delete`, ignores its
(always-`nil`) error, and writes status 200; it makes no logger call. -/
def keyValueDeleteHandler (key : Str) (s : Store) : HandlerResult :=
  let out := Delete key s
  ⟨out.1, 200, []⟩

/-! ## Replay pipeline -/

/-- Modelled from the spec: the startup replay loop that "drains the
Reader's event stream and applies each Event to the Store to restore prior
state" (spec §2, §8) is absent from `src/main.go`; following the spec's
event model (kind enum Put/Delete, §3) a Delete event deletes its key and a
Put event stores key ↦ value, via the store ops of main.go. -/
def applyEvent (s : Store) (e : Event) : Store :=
  if e.EventType = EventDelete then (Delete e.Key s).1
  else if e.EventType = EventPut then (Put e.Key e.Value s).1
  else s

/-- One recorded mutation request, as issued by a caller of the logger. -/
inductive Op
  | put (key value : Str)
  | del (key : Str)

/-- The event a caller's operation enqueues, via `WritePut`/`WriteDelete`. -/
def opEvent : Op → Event
  | .put k v => WritePut k v
  | .del k => WriteDelete k

/-- Direct application of an operation to the store (main.go:23-28, 41-46). -/
def applyOp (s : Store) : Op → Store
  | .put k v => (Put k v s).1
  | .del k => (Delete k s).1

/-- The log lines a fresh Writer (sequence counter zero, every append
succeeding) produces for a sequence of operations: each queued event yields
one line of the file, which the scanner later returns without its
newline. -/
def writeLogLines (ops : List Op) : List Str :=
  ((runConsumer (fun _ => true) 0 0 (ops.map opEvent)).1).map recordLine

/-- The store reconstructed by replaying the Writer's log into a fresh empty
store. -/
def replayStore (ops : List Op) : Store :=
  ((ReadEvents (writeLogLines ops)).1).foldl applyEvent []

/-- The store built by applying the same operations directly, in order. -/
def directStore (ops : List Op) : Store :=
  ops.foldl applyOp []

/-- Splitting of a character list at tab characters, the field structure the
on-disk format of spec §6 describes. -/
def splitTabs : Str → List Str
  | [] => [[]]
  | c :: cs =>
    if c = '\t' then [] :: splitTabs cs
    else
      match splitTabs cs with
      | [] => [[c]]
      | f :: rest => (c :: f) :: rest

/-! ## Helper lemmas -/

theorem takeWhile_all {p : Char → Bool} : ∀ {l : Str}, (∀ x ∈ l, p x = true) → l.takeWhile p = l
  | [], _ => rfl
  | x :: xs, h => by
    have hx : p x = true := h x (List.mem_cons_self x xs)
    simp only [List.takeWhile_cons, hx, if_true]
    exact congrArg (x :: ·) (takeWhile_all fun y hy => h y (List.mem_cons_of_mem x hy))

theorem dropWhile_all {p : Char → Bool} : ∀ {l : Str}, (∀ x ∈ l, p x = true) → l.dropWhile p = []
  | [], _ => rfl
  | x :: xs, h => by
    have hx : p x = true := h x (List.mem_cons_self x xs)
    simp only [List.dropWhile_cons, hx, if_true]
    exact dropWhile_all fun y hy => h y (List.mem_cons_of_mem x hy)

theorem takeWhile_append_all {p : Char → Bool} :
    ∀ {xs ys : Str}, (∀ x ∈ xs, p x = true) → (xs ++ ys).takeWhile p = xs ++ ys.takeWhile p
  | [], _, _ => rfl
  | x :: xs, ys, h => by
    have hx : p x = true := h x (List.mem_cons_self x xs)
    simp only [List.cons_append, List.takeWhile_cons, hx, if_true]
    exact congrArg (x :: ·) (takeWhile_append_all fun y hy => h y (List.mem_cons_of_mem x hy))

theorem dropWhile_append_all {p : Char → Bool} :
    ∀ {xs ys : Str}, (∀ x ∈ xs, p x = true) → (xs ++ ys).dropWhile p = ys.dropWhile p
  | [], _, _ => rfl
  | x :: xs, ys, h => by
    have hx : p x = true := h x (List.mem_cons_self x xs)
    simp only [List.cons_append, List.dropWhile_cons, hx, if_true]
    exact dropWhile_append_all fun y hy => h y (List.mem_cons_of_mem x hy)

theorem isScanSpace_of_digit {c : Char} (h : isDigitChar c = true) : isScanSpace c = false := by
  simp only [isDigitChar, Bool.and_eq_true, decide_eq_true_eq] at h
  simp only [isScanSpace, Bool.or_eq_false_iff, Bool.and_eq_false_iff,
    decide_eq_false_iff_not, not_le]
  omega

theorem digitVal_digitChar {d : Nat} (h : d < 10) : digitVal (Nat.digitChar d) = d := by
  interval_cases d <;> decide

theorem isDigitChar_digitChar {d : Nat} (h : d < 10) : isDigitChar (Nat.digitChar d) = true := by
  interval_cases d <;> decide

theorem natDecCore_all_digits :
    ∀ (fuel n : Nat), ∀ c ∈ natDecCore fuel n, isDigitChar c = true := by
  intro fuel
  induction fuel with
  | zero => intro n c hc; simp [natDecCore] at hc
  | succ fuel ih =>
    intro n c hc
    by_cases hn : n = 0
    · simp [natDecCore, hn] at hc
    · simp only [natDecCore, hn, if_false, List.mem_cons] at hc
      rcases hc with h | h
      · subst h; exact isDigitChar_digitChar (Nat.mod_lt n (by omega))
      · exact ih _ c h

theorem natDec_all_digits (n : Nat) : ∀ c ∈ natDec n, isDigitChar c = true := by
  intro c hc
  by_cases hn : n = 0
  · simp [natDec, hn] at hc; subst hc; decide
  · simp only [natDec, hn, if_false, List.mem_reverse] at hc
    exact natDecCore_all_digits n n c hc

theorem natDec_ne_nil (n : Nat) : natDec n ≠ [] := by
  by_cases hn : n = 0
  · simp [natDec, hn]
  · simp only [natDec, hn, if_false, ne_eq, List.reverse_eq_nil_iff]
    cases n with
    | zero => exact absurd rfl hn
    | succ m => simp [natDecCore]

theorem foldr_natDecCore :
    ∀ (fuel n : Nat), n ≤ fuel →
      (natDecCore fuel n).foldr (fun c a => a * 10 + digitVal c) 0 = n := by
  intro fuel
  induction fuel with
  | zero => intro n h; interval_cases n; rfl
  | succ fuel ih =>
    intro n h
    by_cases hn : n = 0
    · simp [natDecCore, hn]
    · have hdiv : n / 10 ≤ fuel := by
        have : n / 10 < n := Nat.div_lt_self (by omega) (by omega)
        omega
      simp only [natDecCore, hn, if_false, List.foldr_cons, ih (n / 10) hdiv,
        digitVal_digitChar (Nat.mod_lt n (by omega))]
      omega

theorem parseNat_natDec (n : Nat) :
    (natDec n).foldl (fun a c => a * 10 + digitVal c) 0 = n := by
  by_cases hn : n = 0
  · subst hn; decide
  · simp only [natDec, hn, if_false, List.foldl_reverse]
    exact foldr_natDecCore n n (Nat.le_refl n)

theorem scanNat_natDec (n : Nat) (rest : Str) :
    scanNat (natDec n ++ '\t' :: rest) = some (n, '\t' :: rest) := by
  obtain ⟨c, cs, hcons⟩ : ∃ c cs, natDec n = c :: cs := by
    cases h : natDec n with
    | nil => exact absurd h (natDec_ne_nil n)
    | cons c cs => exact ⟨c, cs, rfl⟩
  have hdigits := natDec_all_digits n
  have hdrop : (natDec n ++ '\t' :: rest).dropWhile isScanSpace = natDec n ++ '\t' :: rest := by
    rw [hcons, List.cons_append, List.dropWhile_cons]
    have : isScanSpace c = false :=
      isScanSpace_of_digit (hdigits c (hcons ▸ List.mem_cons_self c cs))
    simp [this]
  have htake : (natDec n ++ '\t' :: rest).takeWhile isDigitChar = natDec n := by
    rw [takeWhile_append_all hdigits, List.takeWhile_cons]
    simp [show isDigitChar '\t' = false from rfl]
  have htail : (natDec n ++ '\t' :: rest).dropWhile isDigitChar = '\t' :: rest := by
    rw [dropWhile_append_all hdigits, List.dropWhile_cons]
    simp [show isDigitChar '\t' = false from rfl]
  simp only [scanNat, hdrop, htake, htail]
  have hne : (natDec n).isEmpty = false := List.isEmpty_eq_false.mpr (natDec_ne_nil n)
  simp [hne, parseNat_natDec]

theorem scanNat_tab (cs : Str) : scanNat ('\t' :: cs) = scanNat cs := by
  simp only [scanNat, List.dropWhile_cons]
  simp [show isScanSpace '\t' = true from rfl]

theorem scanToken_tab (cs : Str) : scanToken ('\t' :: cs) = scanToken cs := by
  simp only [scanToken, List.dropWhile_cons]
  simp [show isScanSpace '\t' = true from rfl]

theorem scanToken_run (t : Str) (hne : t ≠ []) (hs : ∀ c ∈ t, isScanSpace c = false)
    (rest : Str) : scanToken (t ++ '\t' :: rest) = some (t, '\t' :: rest) := by
  have hall : ∀ c ∈ t, (fun c => !isScanSpace c) c = true := by
    intro c hc; simp [hs c hc]
  obtain ⟨c, cs, hcons⟩ : ∃ c cs, t = c :: cs := by
    cases t with
    | nil => exact absurd rfl hne
    | cons c cs => exact ⟨c, cs, rfl⟩
  have hdrop : (t ++ '\t' :: rest).dropWhile isScanSpace = t ++ '\t' :: rest := by
    rw [hcons, List.cons_append, List.dropWhile_cons]
    simp [hs c (hcons ▸ List.mem_cons_self c cs)]
  have htake : (t ++ '\t' :: rest).takeWhile (fun c => !isScanSpace c) = t := by
    rw [takeWhile_append_all hall, List.takeWhile_cons]
    simp [show isScanSpace '\t' = true from rfl]
  have htail : (t ++ '\t' :: rest).dropWhile (fun c => !isScanSpace c) = '\t' :: rest := by
    rw [dropWhile_append_all hall, List.dropWhile_cons]
    simp [show isScanSpace '\t' = true from rfl]
  simp only [scanToken, hdrop, htake, htail]
  simp [List.isEmpty_eq_false.mpr hne]

theorem scanToken_final (t : Str) (hne : t ≠ []) (hs : ∀ c ∈ t, isScanSpace c = false) :
    scanToken t = some (t, []) := by
  have hall : ∀ c ∈ t, (fun c => !isScanSpace c) c = true := by
    intro c hc; simp [hs c hc]
  obtain ⟨c, cs, hcons⟩ : ∃ c cs, t = c :: cs := by
    cases t with
    | nil => exact absurd rfl hne
    | cons c cs => exact ⟨c, cs, rfl⟩
  have hdrop : t.dropWhile isScanSpace = t := by
    rw [hcons, List.dropWhile_cons]
    simp [hs c (hcons ▸ List.mem_cons_self c cs)]
  simp only [scanToken, hdrop, takeWhile_all hall, dropWhile_all hall]
  simp [List.isEmpty_eq_false.mpr hne]

theorem parseLine_recordLine (r : LogRecord) (hseq : r.seq < W64) (hkind : r.kind < 2 ^ 8)
    (hk : r.key ≠ []) (hv : r.value ≠ [])
    (hks : ∀ c ∈ r.key, isScanSpace c = false)
    (hvs : ∀ c ∈ r.value, isScanSpace c = false) :
    parseLine (recordLine r) = some r := by
  simp only [recordLine, parseLine, scanNat_natDec, scanNat_tab, scanToken_tab,
    scanToken_run r.key hk hks, scanToken_final r.value hv hvs,
    Nat.not_le.mpr hseq, Nat.not_le.mpr hkind, if_false]

theorem tab_not_in_natDec (n : Nat) : '\t' ∉ natDec n := fun h =>
  absurd (natDec_all_digits n '\t' h) (by decide)

theorem newline_not_in_natDec (n : Nat) : '\n' ∉ natDec n := fun h =>
  absurd (natDec_all_digits n '\n' h) (by decide)

theorem splitTabs_no_tab : ∀ {l : Str}, '\t' ∉ l → splitTabs l = [l]
  | [], _ => rfl
  | c :: cs, h => by
    have hc : ¬ c = '\t' := fun hc => h (hc ▸ List.mem_cons_self c cs)
    have ih := splitTabs_no_tab (fun hm => h (List.mem_cons_of_mem c hm))
    simp [splitTabs, hc, ih]

theorem splitTabs_append :
    ∀ {xs : Str}, '\t' ∉ xs → ∀ ys, splitTabs (xs ++ '\t' :: ys) = xs :: splitTabs ys
  | [], _, ys => by simp [splitTabs]
  | x :: xs, h, ys => by
    have hx : ¬ x = '\t' := fun hc => h (hc ▸ List.mem_cons_self x xs)
    have ih := splitTabs_append (fun hm => h (List.mem_cons_of_mem x hm)) ys
    simp [splitTabs, hx, ih]

/-- Fields of a well-behaved record line: the four `Fprintf` arguments in
order. -/
theorem splitTabs_recordLine (r : LogRecord) (hk : '\t' ∉ r.key) (hv : '\t' ∉ r.value) :
    splitTabs (recordLine r) = [natDec r.seq, natDec r.kind, r.key, r.value] := by
  rw [recordLine, splitTabs_append (tab_not_in_natDec r.seq),
    splitTabs_append (tab_not_in_natDec r.kind), splitTabs_append hk, splitTabs_no_tab hv]

theorem newline_not_in_recordLine (r : LogRecord) (hk : '\n' ∉ r.key) (hv : '\n' ∉ r.value) :
    '\n' ∉ recordLine r := by
  simp only [recordLine, List.mem_append, List.mem_cons, not_or]
  exact ⟨newline_not_in_natDec r.seq, by decide,
    ⟨newline_not_in_natDec r.kind, by decide, ⟨hk, by decide, hv⟩⟩⟩

/-! ## Lemmas about the writer's consumer loop -/

theorem range'_map_mod :
    ∀ (n a b : Nat), a % W64 = b % W64 →
      (List.range' a n).map (· % W64) = (List.range' b n).map (· % W64) := by
  intro n
  induction n with
  | zero => intro a b _; rfl
  | succ n ih =>
    intro a b h
    have hstep : (a + 1) % W64 = (b + 1) % W64 := by
      rw [← Nat.mod_add_mod, h, Nat.mod_add_mod]
    simp only [List.range'_succ, List.map_cons, h, hstep]
    rw [ih (a + 1) (b + 1) hstep]

/-- Sequence numbers a consumer whose appends all succeed writes for a queue
of events: the wrapped values of `lastSeq + 1, lastSeq + 2, ...`. -/
theorem runConsumer_ok_seqs :
    ∀ (evs : List Event) (idx lastSeq : Nat),
      ((runConsumer (fun _ => true) idx lastSeq evs).1).map LogRecord.seq =
        (List.range' (lastSeq + 1) evs.length).map (· % W64) := by
  intro evs
  induction evs with
  | nil => intro idx lastSeq; rfl
  | cons e rest ih =>
    intro idx lastSeq
    simp only [runConsumer, if_true, List.map_cons, List.length_cons, List.range'_succ]
    refine congrArg (_ :: ·) ?_
    rw [ih (idx + 1) ((lastSeq + 1) % W64)]
    exact range'_map_mod rest.length _ _ (by rw [Nat.mod_add_mod])

/-- The records a consumer writes up to its first failing append are the
records an all-successful consumer writes for the prefix of the queue before
the failing event; the failure is pushed, and the queue beyond the failing
event is left unconsumed. -/
theorem runConsumer_fail :
    ∀ (evs : List Event) (i idx lastSeq : Nat) (ok : Nat → Bool),
      (∀ j, j < i → ok (idx + j) = true) → ok (idx + i) = false → i < evs.length →
      runConsumer ok idx lastSeq evs =
        ((runConsumer (fun _ => true) idx lastSeq (evs.take i)).1, true, evs.drop (i + 1)) := by
  intro evs
  induction evs with
  | nil => intro i idx lastSeq ok _ _ hlen; simp at hlen
  | cons e rest ih =>
    intro i idx lastSeq ok hpre hfail hlen
    cases i with
    | zero =>
      have h0 : ok idx = false := by simpa using hfail
      simp [runConsumer, h0]
    | succ k =>
      have h0 : ok idx = true := by simpa using hpre 0 (Nat.succ_pos k)
      have hpre' : ∀ j, j < k → ok (idx + 1 + j) = true := fun j hj => by
        have := hpre (j + 1) (by omega)
        simpa [Nat.add_assoc, Nat.add_comm 1 j] using this
      have hfail' : ok (idx + 1 + k) = false := by
        have := hfail
        simpa [Nat.add_assoc, Nat.add_comm 1 k] using this
      have hlen' : k < rest.length := by simpa using hlen
      simp only [runConsumer, h0, if_true, List.take_succ_cons, List.drop_succ_cons]
      rw [ih k (idx + 1) ((lastSeq + 1) % W64) ok hpre' hfail' hlen']

/-! ## Lemmas about the store -/

theorem mapErase_of_absent :
    ∀ {k : Str} {s : Store}, mapFind k s = none → mapErase k s = s := by
  intro k s
  induction s with
  | nil => intro _; rfl
  | cons p rest ih =>
    intro h
    by_cases hk : p.1 = k
    · simp [mapFind, hk] at h
    · simp only [mapFind, hk, if_false] at h
      simp [mapErase, hk, ih h]

/-! ## Claim theorems -/

/-- Claim C1 (code bug): replay determinism fails on the code. For the
operation sequence Put("foo","bar"); Delete("foo"), the Writer's log replays
to a store that still holds foo ↦ bar — the Delete record's empty value
field makes its line `2\t1\tfoo\t` unparseable by `Sscanf`'s final `%s`, so
replay stops with a parse error after the Put event — while applying the
same operations directly leaves the store empty. -/
theorem replay_determinism_fails_on_delete :
    replayStore [.put "foo".toList "bar".toList, .del "foo".toList] =
      [("foo".toList, "bar".toList)] ∧
    directStore [.put "foo".toList "bar".toList, .del "foo".toList] = [] ∧
    (ReadEvents (writeLogLines [.put "foo".toList "bar".toList, .del "foo".toList])).2 =
      some .parseErr := by
  decide

/-- Claim C2 (code bug): replaying the log lines `1\t2\tfoo\tbar` and
`2\t1\tfoo\t` does not emit both events: the second line fails to parse (its
value field is empty, and `%s` needs a non-empty token), so exactly one
event is emitted together with a parse error, and the reconstructed store
still maps foo ↦ bar instead of leaving foo absent. -/
theorem put_then_delete_replay_divergence :
    ReadEvents ["1\t2\tfoo\tbar".toList, "2\t1\tfoo\t".toList] =
      ([⟨1, 2, "foo".toList, "bar".toList⟩], some .parseErr) ∧
    mapFind "foo".toList
        (((ReadEvents ["1\t2\tfoo\tbar".toList, "2\t1\tfoo\t".toList]).1).foldl applyEvent []) =
      some "bar".toList := by
  decide

/-- Claim C3 (code bug): the HTTP handlers perform successful Put and Delete
operations (statuses 201 and 200) yet make no `TransactionLogger` call at
all — `main` wires no logger and the handler bodies call only the store
ops — contradicting the requirement that every successful mutation invoke
`WritePut`/`WriteDelete`. -/
theorem handlers_make_no_logger_calls :
    (keyValuePutHandler "foo".toList "bar".toList []).status = 201 ∧
    (keyValuePutHandler "foo".toList "bar".toList []).loggerCalls = [] ∧
    (keyValueDeleteHandler "foo".toList [("foo".toList, "bar".toList)]).status = 200 ∧
    (keyValueDeleteHandler "foo".toList [("foo".toList, "bar".toList)]).loggerCalls = [] := by
  decide

/-- Claim C4 (amended): after N successful appends by a single freshly
started Writer (sequence counter zero, no prior replay), the recorded
sequence numbers are exactly 1..N in order — for every N below 2^64; the
`uint64` counter wraps at the 2^64-th append. -/
theorem writer_sequences_exactly_one_to_n (evs : List Event) (h : evs.length < W64) :
    ((runConsumer (fun _ => true) 0 0 evs).1).map LogRecord.seq =
      List.range' 1 evs.length := by
  rw [runConsumer_ok_seqs]
  have hmod : ∀ x ∈ List.range' 1 evs.length, x % W64 = x := by
    intro x hx
    rw [List.mem_range'_1] at hx
    exact Nat.mod_eq_of_lt (by omega)
  rw [List.map_congr_left hmod, List.map_id']

theorem writer_sequences_exactly_one_to_n_witness :
    ((runConsumer (fun _ => true) 0 0 [WritePut "a".toList "b".toList,
        WriteDelete "a".toList, WritePut "c".toList "d".toList]).1).map LogRecord.seq =
      List.range' 1 3 :=
  writer_sequences_exactly_one_to_n
    [WritePut "a".toList "b".toList, WriteDelete "a".toList, WritePut "c".toList "d".toList]
    (by decide)

/-- Claim C4 counterexample: at N = 2^64 the claim as stated fails: every
recorded sequence number is a `uint64` remainder and so lies below 2^64, yet
the claimed list 1..N holds the value 2^64 itself; the counter wraps. -/
theorem writer_sequences_wrap_at_uint64_max :
    ¬ (((runConsumer (fun _ => true) 0 0
          (List.replicate W64 (WritePut "k".toList "v".toList))).1).map LogRecord.seq =
        List.range' 1 (List.replicate W64 (WritePut "k".toList "v".toList)).length) := by
  intro h
  rw [runConsumer_ok_seqs, List.length_replicate] at h
  have hW : W64 = 18446744073709551616 := by norm_num [W64]
  have hmem : W64 ∈ List.range' 1 W64 := by
    rw [List.mem_range'_1]
    omega
  rw [← h] at hmem
  obtain ⟨x, -, hx⟩ := List.mem_map.mp hmem
  have hlt : x % W64 < W64 := Nat.mod_lt x (by omega)
  omega

/-- Claim C5: during replay, any line parsing to a sequence not strictly
greater than the tracked last sequence is rejected with a sequence error and
ends emission; in particular a log with sequences 5 then 3 emits exactly the
first event and then the sequence error. -/
theorem reader_rejects_nonincreasing_sequence :
    (∀ (lastSeq : Nat) (line : Str) (rest : List Str) (r : LogRecord),
      parseLine line = some r → r.seq ≤ lastSeq →
      readLoop lastSeq (line :: rest) = ([], some .seqErr)) ∧
    ReadEvents ["5\t2\ta\tb".toList, "3\t2\tc\td".toList] =
      ([⟨5, 2, "a".toList, "b".toList⟩], some .seqErr) := by
  constructor
  · intro lastSeq line rest r hp hle
    simp [readLoop, hp, hle]
  · decide

theorem reader_rejects_nonincreasing_sequence_witness :
    readLoop 5 ["3\t2\tc\td".toList] = ([], some .seqErr) :=
  reader_rejects_nonincreasing_sequence.1 5 "3\t2\tc\td".toList []
    ⟨3, 2, "c".toList, "d".toList⟩ (by decide) (by decide)

/-- Claim C6 (amended): every record the Writer appends whose key and value
contain no tab and no newline is a single newline-terminated line of exactly
four tab-separated fields — decimal sequence, decimal kind byte (1 for
Delete events, 2 for Put events, as `WriteDelete`/`WritePut` set), key,
value; a tab or newline inside a key or value breaks the field or line
structure. -/
theorem record_format_four_tab_fields (r : LogRecord)
    (hkt : '\t' ∉ r.key) (hkn : '\n' ∉ r.key)
    (hvt : '\t' ∉ r.value) (hvn : '\n' ∉ r.value) :
    recordText r = recordLine r ++ ['\n'] ∧ '\n' ∉ recordLine r ∧
    splitTabs (recordLine r) = [natDec r.seq, natDec r.kind, r.key, r.value] ∧
    (∀ k, (WriteDelete k).EventType = EventDelete) ∧
    (∀ k v, (WritePut k v).EventType = EventPut) :=
  ⟨rfl, newline_not_in_recordLine r hkn hvn, splitTabs_recordLine r hkt hvt,
    fun _ => rfl, fun _ _ => rfl⟩

theorem record_format_four_tab_fields_witness :
    splitTabs (recordLine ⟨1, 2, "foo".toList, "bar".toList⟩) =
      [natDec 1, natDec 2, "foo".toList, "bar".toList] :=
  (record_format_four_tab_fields ⟨1, 2, "foo".toList, "bar".toList⟩
    (by decide) (by decide) (by decide) (by decide)).2.2.1

/-- Claim C6 counterexample: the claim as stated, over all keys and values,
fails: a key holding a tab makes the record split into five tab-separated
fields, and a value holding a newline makes the appended bytes span two
lines. -/
theorem record_format_tab_in_key_five_fields :
    (splitTabs (recordLine ⟨1, 2, ['a', '\t', 'b'], ['c']⟩)).length = 5 ∧
    (recordText ⟨1, 2, ['k'], ['a', '\n', 'b']⟩).count '\n' = 2 := by
  decide

/-- Claim C7 counterexample: the claim as stated fails on the code: the
first line `0\t2\tfoo\tbar` parses successfully (Sscanf returns no error),
yet the reader emits zero events and a sequence error — not one event and a
parse error — because the fresh logger's `lastSequence` is 0 and the check
`lastSequence >= e.Sequence` already rejects the parsed sequence 0. -/
theorem parse_failure_zero_sequence_counterexample :
    parseLine "0\t2\tfoo\tbar".toList = some ⟨0, 2, "foo".toList, "bar".toList⟩ ∧
    parseLine "xyz".toList = none ∧
    ReadEvents ["0\t2\tfoo\tbar".toList, "xyz".toList] = ([], some .seqErr) := by
  decide

/-- Claim C7 (amended): on a log whose first line parses successfully to a
sequence strictly greater than zero and whose second line is malformed,
`ReadEvents` emits exactly the first event and then exactly one parse error,
and emits nothing further, whatever follows the malformed line; the returned
pair is the goroutine's final output, after which its deferred closes shut
both channels. -/
theorem parse_failure_containment (line1 line2 : Str) (rest : List Str) (r : LogRecord)
    (h1 : parseLine line1 = some r) (hpos : 0 < r.seq) (h2 : parseLine line2 = none) :
    ReadEvents (line1 :: line2 :: rest) =
      ([⟨r.seq, r.kind, r.key, r.value⟩], some .parseErr) := by
  have hle : ¬ r.seq ≤ 0 := by omega
  simp [ReadEvents, readLoop, h1, h2, hle]

theorem parse_failure_containment_witness :
    ReadEvents ["1\t2\tfoo\tbar".toList, "xyz".toList] =
      ([⟨1, 2, "foo".toList, "bar".toList⟩], some .parseErr) :=
  parse_failure_containment "1\t2\tfoo\tbar".toList "xyz".toList []
    ⟨1, 2, "foo".toList, "bar".toList⟩ (by decide) (by decide) (by decide)

/-- Claim C8: if the i-th append fails (all earlier ones succeeding), the
consumer pushes the failure onto the error stream and stops: the file holds
exactly the records of the events before the failing one, and the queue
entries after the failing event are never consumed. -/
theorem writer_fail_stop (evs : List Event) (i lastSeq : Nat) (ok : Nat → Bool)
    (hpre : ∀ j, j < i → ok j = true) (hfail : ok i = false) (hlen : i < evs.length) :
    runConsumer ok 0 lastSeq evs =
      ((runConsumer (fun _ => true) 0 lastSeq (evs.take i)).1, true, evs.drop (i + 1)) :=
  runConsumer_fail evs i 0 lastSeq ok (fun j hj => by simpa using hpre j hj)
    (by simpa using hfail) hlen

theorem writer_fail_stop_witness :
    runConsumer (fun j => decide (j < 1)) 0 0
        [WritePut "a".toList "b".toList, WritePut "c".toList "d".toList,
          WriteDelete "e".toList] =
      ([⟨1, 2, "a".toList, "b".toList⟩], true, [WriteDelete "e".toList]) := by
  have h := writer_fail_stop
    [WritePut "a".toList "b".toList, WritePut "c".toList "d".toList, WriteDelete "e".toList]
    1 0 (fun j => decide (j < 1)) (by decide) (by decide) (by decide)
  rw [h]
  decide

/-- Claim C9 (amended): for every record whose sequence fits `uint64`, whose
kind fits a byte, and whose key and value are non-empty and contain no
character of the `fmt` scanner's whitespace table, formatting with the
Writer's format string and parsing back with the Reader's parser returns the
record unchanged. The claim's weaker precondition — merely no space, tab or
newline — is not enough, because the parser splits tokens at every scanner
whitespace character. -/
theorem format_parse_round_trip (r : LogRecord) (hseq : r.seq < W64) (hkind : r.kind < 2 ^ 8)
    (hk : r.key ≠ []) (hv : r.value ≠ [])
    (hks : ∀ c ∈ r.key, isScanSpace c = false)
    (hvs : ∀ c ∈ r.value, isScanSpace c = false) :
    parseLine (recordLine r) = some r :=
  parseLine_recordLine r hseq hkind hk hv hks hvs

theorem format_parse_round_trip_witness :
    parseLine (recordLine ⟨7, 2, "foo".toList, "bar".toList⟩) =
      some ⟨7, 2, "foo".toList, "bar".toList⟩ :=
  format_parse_round_trip ⟨7, 2, "foo".toList, "bar".toList⟩
    (by decide) (by decide) (by decide) (by decide) (by decide) (by decide)

/-- Claim C9 counterexample: the key `a\x0bb` is non-empty and holds no
space, tab or newline, yet the round trip loses it: the vertical tab is
scanner whitespace, so the parser returns key `a` and value `b` instead of
the original key and value. -/
theorem round_trip_fails_on_vertical_tab :
    (['a', '\x0b', 'b'] ≠ ([] : Str)) ∧ ' ' ∉ ['a', '\x0b', 'b'] ∧
    '\t' ∉ ['a', '\x0b', 'b'] ∧ '\n' ∉ ['a', '\x0b', 'b'] ∧
    parseLine (recordLine ⟨1, 2, ['a', '\x0b', 'b'], ['c']⟩) = some ⟨1, 2, ['a'], ['b']⟩ ∧
    parseLine (recordLine ⟨1, 2, ['a', '\x0b', 'b'], ['c']⟩) ≠
      some ⟨1, 2, ['a', '\x0b', 'b'], ['c']⟩ := by
  decide

/-- Claim C10: `Delete` returns `nil` for every key, deleting an absent key
(one `Get` reports as missing) leaves the store unchanged, and the DELETE
handler reports status 200 regardless of whether the key existed. -/
theorem delete_never_fails (key : Str) (s : Store) :
    (Delete key s).2 = none ∧
    ((Get key s).2 = some KVError.noSuchKey → (Delete key s).1 = s) ∧
    (keyValueDeleteHandler key s).status = 200 := by
  refine ⟨rfl, ?_, rfl⟩
  intro h
  have hfind : mapFind key s = none := by
    cases hf : mapFind key s with
    | none => rfl
    | some v => simp [Get, hf] at h
  exact mapErase_of_absent hfind

theorem delete_never_fails_witness :
    (Delete "b".toList [("a".toList, "x".toList)]).1 = [("a".toList, "x".toList)] ∧
    (Delete "b".toList [("a".toList, "x".toList)]).2 = none :=
  ⟨(delete_never_fails "b".toList [("a".toList, "x".toList)]).2.1 (by decide),
   (delete_never_fails "b".toList [("a".toList, "x".toList)]).1⟩

end KVStore
